import Mathlib

/-!
Shallow embedding of the connection façade of `embedded-tls`
(`src/asynch.rs`, `TlsConnection`). Bytes are modelled as `Nat`, buffers as
`List Nat`. Mutation of `&mut self` is modelled by explicit state passing:
every operation returns the updated connection together with its
`Result` value (`Except TlsError _`). Collaborators that are not part of
the façade source (the record codec, the handshake state driver, the
decrypted-read machinery) are abstract function parameters, or are
modelled from the specification where the claims need their shape.
-/

set_option maxRecDepth 16384

namespace EmbeddedTls

/-- Decidable equality for `Except`, so that witnesses can evaluate the
operations' results with `decide`. -/
instance {e : Type} {a : Type} [DecidableEq e] [DecidableEq a] :
    DecidableEq (Except e a) := fun x y =>
  match x, y with
  | .error e1, .error e2 =>
    if h : e1 = e2 then .isTrue (by rw [h])
    else .isFalse (by intro hc; injection hc; exact h (by assumption))
  | .error _, .ok _ => .isFalse (by intro hc; exact Except.noConfusion hc)
  | .ok _, .error _ => .isFalse (by intro hc; exact Except.noConfusion hc)
  | .ok a1, .ok a2 =>
    if h : a1 = a2 then .isTrue (by rw [h])
    else .isFalse (by intro hc; injection hc; exact h (by assumption))

/-- Error kinds of the library (`TlsError`), as used by `asynch.rs`:
`Io(kind)` wraps a transport error kind (modelled as `Nat`),
`MissingHandshake` is returned by user operations before `open`. -/
inductive TlsError where
  | Io (kind : Nat)
  | MissingHandshake
  | DecodeError
  | RecordOverflow
  | CryptoError
  | UnexpectedMessage
  | ConnectionClosed
  | InternalError
deriving DecidableEq, Repr

/-- Model of the async transport (`Socket: AsyncRead + AsyncWrite`), seen
through the only operation the façade's write path uses: `write_all`.
`written` logs each successfully completed `write_all` payload;
`failPlan` scripts the outcome of the next `write_all` calls
(`none` = success, `some k` = I/O error of kind `k`); an exhausted plan
means success. -/
structure Socket where
  written : List (List Nat) := []
  failPlan : List (Option Nat) := []
deriving DecidableEq, Repr

/-- `write_all(data)` on the transport: consumes the head of the failure
plan; on success the payload is appended to the log, on failure the error
kind is reported and nothing is logged. -/
def Socket.writeAll (s : Socket) (data : List Nat) : Socket × Option Nat :=
  match s.failPlan with
  | [] => ({ s with written := s.written ++ [data] }, none)
  | none :: rest => ({ written := s.written ++ [data], failPlan := rest }, none)
  | some k :: rest => ({ s with failPlan := rest }, some k)

/-- Modelled from the spec (§4.6; `DecryptedBufferInfo` is not under
`src/`): `{ offset, length, consumed }` cursor describing the decrypted
plaintext span currently resident in `record_read_buf`. -/
structure DecryptedBufferInfo where
  offset : Nat := 0
  length : Nat := 0
  consumed : Nat := 0
deriving DecidableEq, Repr

instance : Inhabited DecryptedBufferInfo := ⟨{}⟩

/-- Modelled from the spec (§4.6): `is_empty() = (consumed == length)`. -/
def DecryptedBufferInfo.isEmpty (d : DecryptedBufferInfo) : Bool :=
  d.consumed == d.length

/-- `TLS_RECORD_OVERHEAD = 128` (`asynch.rs` line 19). -/
def TLS_RECORD_OVERHEAD : Nat := 128

/-- State of a `TlsConnection` (`asynch.rs` lines 24-36). The key schedule
is represented by the two sequence counters the façade touches
(`increment_write_counter`; a read counter for the record reader);
`record_reader` is represented by its buffer `recordReadBuf`. -/
structure Conn where
  delegate : Socket
  opened : Bool
  writeCounter : Nat
  readCounter : Nat
  recordReadBuf : List Nat
  recordWriteBuf : List Nat
  writePos : Nat
  decrypted : DecryptedBufferInfo
deriving DecidableEq, Repr

/-- `TlsConnection::new` (`asynch.rs` lines 54-72). The `assert!` that the
write buffer exceeds `TLS_RECORD_OVERHEAD` is modelled as returning
`none` (panic) when the precondition fails. `KeySchedule::new()` starts
both counters at 0; `DecryptedBufferInfo::default()` is the zero cursor. -/
def new (delegate : Socket) (recordReadBuf recordWriteBuf : List Nat) : Option Conn :=
  if recordWriteBuf.length > TLS_RECORD_OVERHEAD then
    some { delegate, opened := false, writeCounter := 0, readCounter := 0,
           recordReadBuf, recordWriteBuf, writePos := 0, decrypted := {} }
  else
    none

/-- Shape of `encode_application_data_record_in_place(buf, write_pos,
key_schedule)`: given the write buffer contents, the number of buffered
plaintext bytes and the current write counter, it either fails or returns
the sealed buffer contents (in-place mutation) and the record length. -/
abbrev EncodeFn := List Nat → Nat → Nat → Except TlsError (List Nat × Nat)

/-- `TlsConnection::flush` (`asynch.rs` lines 144-162): if `write_pos > 0`,
seal the buffered plaintext in place, `write_all` the encoded record to
the transport, then increment the write counter and zero `write_pos`.
Otherwise a no-op. -/
def flush (encode : EncodeFn) (c : Conn) : Conn × Except TlsError Unit :=
  if c.writePos > 0 then
    match encode c.recordWriteBuf c.writePos c.writeCounter with
    | .error e => (c, .error e)
    | .ok (buf, len) =>
      match (c.delegate.writeAll (buf.take len) : Socket × Option Nat) with
      | (d, some k) => ({ c with recordWriteBuf := buf, delegate := d }, .error (.Io k))
      | (d, none) =>
        ({ c with recordWriteBuf := buf, delegate := d,
                  writeCounter := c.writeCounter + 1, writePos := 0 }, .ok ())
  else
    (c, .ok ())

/-- Write `src` into `dst` at offset `start`
(`dst[start..start+src.len()].copy_from_slice(src)`). -/
def setSlice (dst : List Nat) (start : Nat) (src : List Nat) : List Nat :=
  dst.take start ++ src ++ dst.drop (start + src.length)

/-- The state of the connection after the copy phase of
`TlsConnection::write` (`asynch.rs` lines 125-131): `buffered =
min(buf.len(), max_block_size - write_pos)` bytes of `buf` are copied
into the write buffer at `write_pos`, which advances by `buffered`. -/
def afterCopy (c : Conn) (buf : List Nat) : Conn :=
  let maxBlockSize := c.recordWriteBuf.length - TLS_RECORD_OVERHEAD
  let buffered := min buf.length (maxBlockSize - c.writePos)
  if buffered > 0 then
    { c with recordWriteBuf := setSlice c.recordWriteBuf c.writePos (buf.take buffered),
             writePos := c.writePos + buffered }
  else
    c

/-- `TlsConnection::write` (`asynch.rs` lines 123-141): requires `opened`,
copies `min(buf.len(), max_block_size - write_pos)` bytes, flushes when
the buffer is exactly full, and returns the number of bytes buffered. -/
def write (encode : EncodeFn) (c : Conn) (buf : List Nat) : Conn × Except TlsError Nat :=
  if c.opened then
    let maxBlockSize := c.recordWriteBuf.length - TLS_RECORD_OVERHEAD
    let buffered := min buf.length (maxBlockSize - c.writePos)
    let c' := afterCopy c buf
    if c'.writePos = maxBlockSize then
      match flush encode c' with
      | (c'', .error e) => (c'', .error e)
      | (c'', .ok ()) => (c'', .ok buffered)
    else
      (c', .ok buffered)
  else
    (c, .error .MissingHandshake)

/-- The portion of the connection state visible to
`read_application_data` (`asynch.rs` lines 191-208): the transport, the
record reader (its buffer and the read counter of the key schedule), the
decrypted cursor and — through `DecryptedReadHandler { is_open: &mut
self.opened }` — the `opened` flag. `write_pos` and `record_write_buf`
are not reachable from it. -/
structure ReadEnv where
  delegate : Socket
  readCounter : Nat
  recordReadBuf : List Nat
  decrypted : DecryptedBufferInfo
  opened : Bool
deriving DecidableEq, Repr

/-- Project the read-path state out of a connection. -/
def Conn.toReadEnv (c : Conn) : ReadEnv :=
  { delegate := c.delegate, readCounter := c.readCounter,
    recordReadBuf := c.recordReadBuf, decrypted := c.decrypted, opened := c.opened }

/-- Write the read-path state back into a connection. -/
def Conn.withReadEnv (c : Conn) (env : ReadEnv) : Conn :=
  { c with delegate := env.delegate, readCounter := env.readCounter,
           recordReadBuf := env.recordReadBuf, decrypted := env.decrypted,
           opened := env.opened }

/-- Shape of one iteration body `read_application_data` (reads one record
from the transport, decrypts it and updates the decrypted cursor); kept
abstract since the record reader and decryptor are outside the façade. -/
abbrev ReadStep := ReadEnv → ReadEnv × Except TlsError Unit

/-- The `while self.decrypted.is_empty()` loop of
`TlsConnection::read_buffered` (`asynch.rs` lines 181-183), fuelled:
`none` models not returning within `fuel` iterations. -/
def readBufferedLoop (step : ReadStep) : Nat → ReadEnv → Option (ReadEnv × Except TlsError Unit)
  | 0, env => if env.decrypted.isEmpty then none else some (env, .ok ())
  | fuel + 1, env =>
    if env.decrypted.isEmpty then
      match step env with
      | (env', .error e) => some (env', .error e)
      | (env', .ok ()) => readBufferedLoop step fuel env'
    else
      some (env, .ok ())

/-- Modelled from the spec (§4.6; `create_read_buffer` delegates to code
not under `src/`): the returned `ReadBuffer` is a borrow of the
unconsumed decrypted slice of `record_read_buf`. -/
def createReadBuffer (c : Conn) : List Nat :=
  (c.recordReadBuf.drop (c.decrypted.offset + c.decrypted.consumed)).take
    (c.decrypted.length - c.decrypted.consumed)

/-- `TlsConnection::read_buffered` (`asynch.rs` lines 179-189): requires
`opened`, loops `read_application_data` while nothing is decrypted, then
returns the read buffer. -/
def readBuffered (step : ReadStep) (fuel : Nat) (c : Conn) :
    Option (Conn × Except TlsError (List Nat)) :=
  if c.opened then
    match readBufferedLoop step fuel c.toReadEnv with
    | none => none
    | some (env, .error e) => some (c.withReadEnv env, .error e)
    | some (env, .ok ()) =>
      some (c.withReadEnv env, .ok (createReadBuffer (c.withReadEnv env)))
  else
    some (c, .error .MissingHandshake)

/-- `TlsConnection::read` (`asynch.rs` lines 169-176): `read_buffered`
followed by `pop_into` into a caller buffer of length `outLen`; `pop_into`
is modelled from the spec (§4.6): it copies
`min(length - consumed, out_buf.len())` bytes and advances `consumed`. -/
def read (step : ReadStep) (fuel : Nat) (c : Conn) (outLen : Nat) :
    Option (Conn × Except TlsError Nat) :=
  match readBuffered step fuel c with
  | none => none
  | some (c', .error e) => some (c', .error e)
  | some (c', .ok _buffer) =>
    let n := min (c'.decrypted.length - c'.decrypted.consumed) outLen
    some ({ c' with decrypted := { c'.decrypted with consumed := c'.decrypted.consumed + n } },
          .ok n)

/-- Modelled from the spec (§4.5; the `State` enum lives outside `src/`):
the handshake driver states. The façade's `open` loop only inspects
`ApplicationData`. -/
inductive State where
  | ClientHello
  | ServerHello
  | ServerVerify
  | ClientCert
  | ClientFinished
  | ApplicationData
deriving DecidableEq, Repr

/-- The portion of the connection state handed to `State::process` by
`TlsConnection::open` (`asynch.rs` lines 93-103): the transport, the
record reader (buffer and read counter), the key schedule (write
counter) and the write buffer contents. `opened`, `write_pos` and
`decrypted` are not passed. -/
structure HsEnv where
  delegate : Socket
  writeCounter : Nat
  readCounter : Nat
  recordReadBuf : List Nat
  recordWriteBuf : List Nat
deriving DecidableEq, Repr

/-- Project the handshake-visible state out of a connection. -/
def Conn.toHsEnv (c : Conn) : HsEnv :=
  { delegate := c.delegate, writeCounter := c.writeCounter, readCounter := c.readCounter,
    recordReadBuf := c.recordReadBuf, recordWriteBuf := c.recordWriteBuf }

/-- Write the handshake-visible state back into a connection. -/
def Conn.withHsEnv (c : Conn) (env : HsEnv) : Conn :=
  { c with delegate := env.delegate, writeCounter := env.writeCounter,
           readCounter := env.readCounter, recordReadBuf := env.recordReadBuf,
           recordWriteBuf := env.recordWriteBuf }

/-- Shape of `State::process`: it mutates the handshake-visible state and
either fails or yields the next state. Kept abstract: the driver is
outside the façade source. -/
abbrev ProcessFn := State → HsEnv → HsEnv × Except TlsError State

/-- The `loop` of `TlsConnection::open` (`asynch.rs` lines 92-110),
fuelled: step the driver, stop successfully as soon as the next state is
`ApplicationData`, propagate the first processing error; `none` models
not returning within `fuel` iterations. -/
def openLoop (process : ProcessFn) : Nat → State → HsEnv → Option (HsEnv × Except TlsError Unit)
  | 0, _, _ => none
  | fuel + 1, st, env =>
    match process st env with
    | (env', .error e) => some (env', .error e)
    | (env', .ok st') =>
      if st' = State.ApplicationData then some (env', .ok ())
      else openLoop process fuel st' env'

/-- `TlsConnection::open` (`asynch.rs` lines 81-113): run the driver loop
from `State::ClientHello`; on reaching `ApplicationData` set
`opened := true` and return `Ok(())`; on a processing error return it,
leaving `opened` untouched. -/
def openConn (process : ProcessFn) (fuel : Nat) (c : Conn) :
    Option (Conn × Except TlsError Unit) :=
  match openLoop process fuel State.ClientHello c.toHsEnv with
  | none => none
  | some (env, .error e) => some (c.withHsEnv env, .error e)
  | some (env, .ok ()) => some ({ c.withHsEnv env with opened := true }, .ok ())

/-- Whether the driver, run with `fuel` steps from `st`, reaches
`ApplicationData` without an intervening processing error. -/
def reachesAppData (process : ProcessFn) : Nat → State → HsEnv → Bool
  | 0, _, _ => false
  | fuel + 1, st, env =>
    match process st env with
    | (_, .error _) => false
    | (env', .ok st') =>
      if st' = State.ApplicationData then true
      else reachesAppData process fuel st' env'

/-- The first processing error raised by the driver within `fuel` steps
from `st`, if any before `ApplicationData` is reached. -/
def firstProcessError (process : ProcessFn) : Nat → State → HsEnv → Option TlsError
  | 0, _, _ => none
  | fuel + 1, st, env =>
    match process st env with
    | (_, .error e) => some e
    | (env', .ok st') =>
      if st' = State.ApplicationData then none
      else firstProcessError process fuel st' env'

/-- Modelled from the spec (§4.7; `ClientRecord` lives outside `src/`):
the CloseNotify alert record built by `ClientRecord::close_notify(opened)`
— a warning alert, encrypted exactly when the connection is opened. -/
structure ClientRecord where
  isCloseNotify : Bool
  encrypted : Bool
deriving DecidableEq, Repr

/-- Modelled from the spec: `ClientRecord::close_notify(opened)` builds a
CloseNotify record that is encrypted iff `opened`. -/
def ClientRecord.closeNotify (opened : Bool) : ClientRecord :=
  { isCloseNotify := true, encrypted := opened }

/-- Shape of `encode_record(buf, key_schedule, record)`: seals the record
into the buffer, returning the new buffer contents and the encoded
length. -/
abbrev EncodeRecordFn := List Nat → Nat → ClientRecord → Except TlsError (List Nat × Nat)

/-- `TlsConnection::close_internal` (`asynch.rs` lines 211-224): encode a
`ClientRecord::close_notify(self.opened)` record, `write_all` it to the
transport, increment the write counter. -/
def closeInternal (encodeRecord : EncodeRecordFn) (c : Conn) : Conn × Except TlsError Unit :=
  let record := ClientRecord.closeNotify c.opened
  match encodeRecord c.recordWriteBuf c.writeCounter record with
  | .error e => (c, .error e)
  | .ok (buf, len) =>
    match (c.delegate.writeAll (buf.take len) : Socket × Option Nat) with
    | (d, some k) => ({ c with recordWriteBuf := buf, delegate := d }, .error (.Io k))
    | (d, none) =>
      ({ c with recordWriteBuf := buf, delegate := d,
                writeCounter := c.writeCounter + 1 }, .ok ())

/-- `TlsConnection::close` (`asynch.rs` lines 227-232): run
`close_internal`; hand the transport back in both outcomes,
`Ok(delegate)` on success and `Err((delegate, e))` on failure. -/
def close (encodeRecord : EncodeRecordFn) (c : Conn) : Except (Socket × TlsError) Socket :=
  match closeInternal encodeRecord c with
  | (c', .ok ()) => .ok c'.delegate
  | (c', .error e) => .error (c'.delegate, e)

/-- The write-buffer invariant of the spec (§3):
`write_pos ≤ record_write_buf.len() - TLS_RECORD_OVERHEAD`. -/
def WriteInv (c : Conn) : Prop :=
  c.writePos ≤ c.recordWriteBuf.length - TLS_RECORD_OVERHEAD

instance (c : Conn) : Decidable (WriteInv c) := by
  unfold WriteInv; infer_instance

/-! ### Helper lemmas -/

theorem setSlice_length (dst src : List Nat) (start : Nat)
    (h : start + src.length ≤ dst.length) :
    (setSlice dst start src).length = dst.length := by
  simp only [setSlice, List.length_append, List.length_take, List.length_drop]
  omega

theorem afterCopy_opened (c : Conn) (buf : List Nat) :
    (afterCopy c buf).opened = c.opened := by
  simp only [afterCopy]; split <;> rfl

theorem afterCopy_delegate (c : Conn) (buf : List Nat) :
    (afterCopy c buf).delegate = c.delegate := by
  simp only [afterCopy]; split <;> rfl

theorem afterCopy_writeCounter (c : Conn) (buf : List Nat) :
    (afterCopy c buf).writeCounter = c.writeCounter := by
  simp only [afterCopy]; split <;> rfl

theorem afterCopy_writePos (c : Conn) (buf : List Nat) :
    (afterCopy c buf).writePos =
      c.writePos + min buf.length (c.recordWriteBuf.length - TLS_RECORD_OVERHEAD - c.writePos) := by
  simp only [afterCopy]
  split
  · rfl
  · next h => omega

theorem afterCopy_bufLength (c : Conn) (buf : List Nat) :
    (afterCopy c buf).recordWriteBuf.length = c.recordWriteBuf.length := by
  simp only [afterCopy]
  split
  · next h =>
    simp only
    refine setSlice_length _ _ _ ?_
    have h1 : min buf.length (c.recordWriteBuf.length - TLS_RECORD_OVERHEAD - c.writePos)
        ≤ buf.length := Nat.min_le_left _ _
    have h2 : min buf.length (c.recordWriteBuf.length - TLS_RECORD_OVERHEAD - c.writePos)
        ≤ c.recordWriteBuf.length - TLS_RECORD_OVERHEAD - c.writePos := Nat.min_le_right _ _
    simp only [List.length_take]
    omega
  · rfl

theorem write_not_opened (encode : EncodeFn) (c : Conn) (buf : List Nat)
    (h : c.opened = false) :
    write encode c buf = (c, .error .MissingHandshake) := by
  simp only [write, h, Bool.false_eq_true, if_false]

theorem readBuffered_not_opened (step : ReadStep) (fuel : Nat) (c : Conn)
    (h : c.opened = false) :
    readBuffered step fuel c = some (c, .error .MissingHandshake) := by
  simp only [readBuffered, h, Bool.false_eq_true, if_false]

theorem read_not_opened (step : ReadStep) (fuel : Nat) (c : Conn) (outLen : Nat)
    (h : c.opened = false) :
    read step fuel c outLen = some (c, .error .MissingHandshake) := by
  simp only [read, readBuffered_not_opened step fuel c h]

theorem flush_zero (encode : EncodeFn) (c : Conn) (h : c.writePos = 0) :
    flush encode c = (c, .ok ()) := by
  simp only [flush, h, lt_irrefl, if_false]

theorem flush_pos_ok (encode : EncodeFn) (c : Conn) (buf : List Nat) (len : Nat)
    (hpos : 0 < c.writePos)
    (henc : encode c.recordWriteBuf c.writePos c.writeCounter = .ok (buf, len))
    (hplan : c.delegate.failPlan.headD none = none) :
    flush encode c =
      ({ c with recordWriteBuf := buf,
                delegate := { written := c.delegate.written ++ [buf.take len],
                              failPlan := c.delegate.failPlan.tail },
                writeCounter := c.writeCounter + 1, writePos := 0 }, .ok ()) := by
  simp only [flush, hpos, if_true, henc, Socket.writeAll]
  rcases hp : c.delegate.failPlan with _ | ⟨o, rest⟩
  · rfl
  · rcases o with _ | k
    · rfl
    · rw [hp] at hplan; simp at hplan

theorem flush_pos_fail (encode : EncodeFn) (c : Conn) (buf : List Nat) (len k : Nat)
    (rest : List (Option Nat))
    (hpos : 0 < c.writePos)
    (henc : encode c.recordWriteBuf c.writePos c.writeCounter = .ok (buf, len))
    (hplan : c.delegate.failPlan = some k :: rest) :
    flush encode c =
      ({ c with recordWriteBuf := buf,
                delegate := { c.delegate with failPlan := rest } }, .error (.Io k)) := by
  simp only [flush, hpos, if_true, henc, Socket.writeAll, hplan]

theorem flush_encode_error (encode : EncodeFn) (c : Conn) (e : TlsError)
    (hpos : 0 < c.writePos)
    (henc : encode c.recordWriteBuf c.writePos c.writeCounter = .error e) :
    flush encode c = (c, .error e) := by
  simp only [flush, hpos, if_true, henc]

theorem flush_ok_writePos (encode : EncodeFn) (c c' : Conn)
    (h : flush encode c = (c', .ok ())) : c'.writePos = 0 := by
  unfold flush at h
  split at h
  · split at h
    · simp at h
    · next buf len heq =>
      split at h
      · simp at h
      · injection h with h1 h2
        subst h1
        rfl
  · next hpos =>
    injection h with h1 h2
    subst h1
    omega

theorem flush_preserves_inv (encode : EncodeFn) (c c' : Conn) (r : Except TlsError Unit)
    (henc : ∀ b p k b' l, encode b p k = .ok (b', l) → b'.length = b.length)
    (hinv : WriteInv c) (h : flush encode c = (c', r)) : WriteInv c' := by
  unfold flush at h
  split at h
  · split at h
    · injection h with h1 h2
      subst h1
      exact hinv
    · next buf len heq =>
      have hlen : buf.length = c.recordWriteBuf.length := henc _ _ _ _ _ heq
      split at h
      · injection h with h1 h2
        subst h1
        simp only [WriteInv, hlen]
        exact hinv
      · injection h with h1 h2
        subst h1
        simp only [WriteInv, hlen]
        exact Nat.zero_le _
  · injection h with h1 h2
    subst h1
    exact hinv

theorem afterCopy_preserves_inv (c : Conn) (buf : List Nat) (hinv : WriteInv c) :
    WriteInv (afterCopy c buf) := by
  simp only [WriteInv, afterCopy_writePos, afterCopy_bufLength]
  have h2 : min buf.length (c.recordWriteBuf.length - TLS_RECORD_OVERHEAD - c.writePos)
      ≤ c.recordWriteBuf.length - TLS_RECORD_OVERHEAD - c.writePos := Nat.min_le_right _ _
  simp only [WriteInv] at hinv
  omega

theorem withReadEnv_writePos (c : Conn) (env : ReadEnv) :
    (c.withReadEnv env).writePos = c.writePos := rfl

theorem withReadEnv_recordWriteBuf (c : Conn) (env : ReadEnv) :
    (c.withReadEnv env).recordWriteBuf = c.recordWriteBuf := rfl

theorem withHsEnv_writePos (c : Conn) (env : HsEnv) :
    (c.withHsEnv env).writePos = c.writePos := rfl

theorem readBuffered_preserves_write_side (step : ReadStep) (fuel : Nat) (c c' : Conn)
    (r : Except TlsError (List Nat)) (h : readBuffered step fuel c = some (c', r)) :
    c'.writePos = c.writePos ∧ c'.recordWriteBuf = c.recordWriteBuf := by
  unfold readBuffered at h
  split at h
  · rcases hl : readBufferedLoop step fuel c.toReadEnv with _ | ⟨env, r'⟩
    · rw [hl] at h; simp at h
    · rw [hl] at h
      rcases r' with e | u
      · injection h with h'
        injection h' with h1 h2
        rw [← h1]
        exact ⟨rfl, rfl⟩
      · cases u
        injection h with h'
        injection h' with h1 h2
        rw [← h1]
        exact ⟨rfl, rfl⟩
  · injection h with h'
    injection h' with h1 h2
    rw [← h1]
    exact ⟨rfl, rfl⟩

theorem read_preserves_write_side (step : ReadStep) (fuel : Nat) (c c' : Conn)
    (outLen : Nat) (r : Except TlsError Nat) (h : read step fuel c outLen = some (c', r)) :
    c'.writePos = c.writePos ∧ c'.recordWriteBuf = c.recordWriteBuf := by
  unfold read at h
  rcases hb : readBuffered step fuel c with _ | ⟨c2, r2⟩
  · rw [hb] at h; simp at h
  · rw [hb] at h
    have hpres := readBuffered_preserves_write_side step fuel c c2 r2 hb
    rcases r2 with e | buffer
    · injection h with h'
      injection h' with h1 h2
      rw [← h1]
      exact hpres
    · injection h with h'
      injection h' with h1 h2
      rw [← h1]
      exact hpres

theorem openLoop_ok_iff_reaches (process : ProcessFn) (fuel : Nat) (st : State)
    (env : HsEnv) :
    (∃ env', openLoop process fuel st env = some (env', .ok ())) ↔
      reachesAppData process fuel st env = true := by
  induction fuel generalizing st env with
  | zero => simp [openLoop, reachesAppData]
  | succ n ih =>
    rcases hp : process st env with ⟨env2, r⟩
    rcases r with e | st'
    · simp [openLoop, reachesAppData, hp]
    · by_cases hst : st' = State.ApplicationData
      · simp [openLoop, reachesAppData, hp, hst]
      · simp only [openLoop, reachesAppData, hp, if_neg hst]
        exact ih st' env2

theorem openLoop_error_firstError (process : ProcessFn) (fuel : Nat) (st : State)
    (env env' : HsEnv) (e : TlsError)
    (h : openLoop process fuel st env = some (env', .error e)) :
    firstProcessError process fuel st env = some e := by
  induction fuel generalizing st env with
  | zero => simp [openLoop] at h
  | succ n ih =>
    rcases hp : process st env with ⟨env2, r⟩
    rcases r with e2 | st'
    · simp only [openLoop, hp] at h
      injection h with h'
      injection h' with h1 h2
      injection h2 with h3
      simp only [firstProcessError, hp, h3]
    · by_cases hst : st' = State.ApplicationData
      · simp only [openLoop, hp, if_pos hst] at h
        injection h with h'
        injection h' with h1 h2
        exact absurd h2 (by simp)
      · simp only [openLoop, hp, if_neg hst] at h
        simp only [firstProcessError, hp, if_neg hst]
        exact ih st' env2 h

theorem openLoop_bufLength (process : ProcessFn) (fuel : Nat) (st : State)
    (env env' : HsEnv) (r : Except TlsError Unit)
    (hproc : ∀ s e2 e2' r2, process s e2 = (e2', r2) →
      e2'.recordWriteBuf.length = e2.recordWriteBuf.length)
    (h : openLoop process fuel st env = some (env', r)) :
    env'.recordWriteBuf.length = env.recordWriteBuf.length := by
  induction fuel generalizing st env with
  | zero => simp [openLoop] at h
  | succ n ih =>
    rcases hp : process st env with ⟨env2, r2⟩
    have hlen := hproc _ _ _ _ hp
    rcases r2 with e2 | st'
    · simp only [openLoop, hp] at h
      injection h with h'
      injection h' with h1 h2
      rw [← h1]
      exact hlen
    · by_cases hst : st' = State.ApplicationData
      · simp only [openLoop, hp, if_pos hst] at h
        injection h with h'
        injection h' with h1 h2
        rw [← h1]
        exact hlen
      · simp only [openLoop, hp, if_neg hst] at h
        rw [ih st' env2 h, hlen]

/-! ### Concrete fixtures used by the witnesses -/

/-- A concrete record sealer: keeps the buffer and reports
`write_pos + 22` encoded bytes (5-byte header, 1 type byte, 16-byte tag). -/
def encAppData : EncodeFn := fun buf pos _ctr => .ok (buf, pos + 22)

/-- A concrete `encode_record` stand-in returning a 30-byte record. -/
def encRecordOk : EncodeRecordFn := fun buf _ctr _record => .ok (buf, 30)

/-- A read step that changes nothing and succeeds. -/
def stepNoop : ReadStep := fun env => (env, .ok ())

/-- A driver that reaches `ApplicationData` in one step. -/
def procToApp : ProcessFn := fun _st env => (env, .ok State.ApplicationData)

/-- A driver that fails immediately with `DecodeError`. -/
def procFail : ProcessFn := fun _st env => (env, .error .DecodeError)

/-- A 200-byte write buffer, as in the spec's write-then-flush scenario. -/
def sampleWriteBuf : List Nat := List.replicate 200 0

/-- An opened connection over the 200-byte write buffer, `write_pos = 0`. -/
def sampleOpen : Conn :=
  { delegate := {}, opened := true, writeCounter := 0, readCounter := 0,
    recordReadBuf := [], recordWriteBuf := sampleWriteBuf, writePos := 0,
    decrypted := {} }

/-- The same connection before the handshake completed. -/
def sampleClosed : Conn := { sampleOpen with opened := false }

/-- An opened connection with 50 plaintext bytes pending. -/
def samplePending : Conn := { sampleOpen with writePos := 50 }

/-- An opened connection with pending bytes whose transport will fail the
next `write_all` with error kind 5. -/
def sampleFailConn : Conn :=
  { sampleOpen with writePos := 10,
                    delegate := { written := [], failPlan := [some 5] } }

/-! ### Claim theorems -/

/-- C1: on an opened connection, `write(buf)` returns `Ok(n)` with
`n = min(buf.len(), (record_write_buf.len() - TLS_RECORD_OVERHEAD) -
write_pos)` — possibly less than `buf.len()` — provided the flush it
triggers when the buffer becomes exactly full succeeds; in particular a
100-byte write on a 200-byte buffer at `write_pos = 0` returns 72. -/
theorem c1_write_returns_buffered_min (encode : EncodeFn) (c : Conn) (buf : List Nat)
    (hopen : c.opened = true)
    (hflush : (afterCopy c buf).writePos = c.recordWriteBuf.length - TLS_RECORD_OVERHEAD →
      (flush encode (afterCopy c buf)).2 = .ok ()) :
    (write encode c buf).2 =
      .ok (min buf.length (c.recordWriteBuf.length - TLS_RECORD_OVERHEAD - c.writePos)) := by
  simp only [write, hopen, if_true]
  split
  · next hfull =>
    have h2 := hflush hfull
    rcases hf : flush encode (afterCopy c buf) with ⟨c'', r⟩
    rw [hf] at h2
    rcases r with e | u
    · simp at h2
    · cases u; rfl
  · rfl

theorem c1_witness :
    sampleOpen.opened = true ∧
      (write encAppData sampleOpen (List.replicate 100 170)).2 = .ok 72 := by
  refine ⟨rfl, ?_⟩
  have h := c1_write_returns_buffered_min encAppData sampleOpen (List.replicate 100 170)
    rfl (by intro _h; decide)
  rw [h]
  decide

/-- C2: with `opened == false`, `write`, `read_buffered` and `read` all
return `MissingHandshake` and leave the connection state — `write_pos`,
the decrypted cursor, the counters, everything — unchanged (the returned
connection is the input connection). -/
theorem c2_unopened_missing_handshake (encode : EncodeFn) (step : ReadStep)
    (fuel outLen : Nat) (c : Conn) (buf : List Nat) (h : c.opened = false) :
    write encode c buf = (c, .error .MissingHandshake) ∧
    readBuffered step fuel c = some (c, .error .MissingHandshake) ∧
    read step fuel c outLen = some (c, .error .MissingHandshake) :=
  ⟨write_not_opened encode c buf h, readBuffered_not_opened step fuel c h,
   read_not_opened step fuel c outLen h⟩

theorem c2_witness :
    write encAppData sampleClosed [1, 2, 3] = (sampleClosed, .error .MissingHandshake) ∧
      readBuffered stepNoop 3 sampleClosed = some (sampleClosed, .error .MissingHandshake) ∧
      read stepNoop 3 sampleClosed 10 = some (sampleClosed, .error .MissingHandshake) :=
  c2_unopened_missing_handshake encAppData stepNoop 3 10 sampleClosed [1, 2, 3] rfl

/-- C3: `flush` is a no-op when `write_pos == 0`; when `write_pos > 0` and
the seal succeeds and the transport accepts the write, it appends exactly
one record — the whole encoded record, the first `len` bytes of the
sealed buffer — to the transport, seals in place (the write buffer
becomes the sealed contents), increments the write counter once and
resets `write_pos` to 0. -/
theorem c3_flush_seals_one_record (encode : EncodeFn) (c : Conn) :
    (c.writePos = 0 → flush encode c = (c, .ok ())) ∧
    (∀ buf len, 0 < c.writePos →
      encode c.recordWriteBuf c.writePos c.writeCounter = .ok (buf, len) →
      c.delegate.failPlan.headD none = none →
      flush encode c =
        ({ c with recordWriteBuf := buf,
                  delegate := { written := c.delegate.written ++ [buf.take len],
                                failPlan := c.delegate.failPlan.tail },
                  writeCounter := c.writeCounter + 1, writePos := 0 }, .ok ())) :=
  ⟨flush_zero encode c,
   fun buf len hpos henc hplan => flush_pos_ok encode c buf len hpos henc hplan⟩

theorem c3_witness :
    0 < samplePending.writePos ∧
      flush encAppData samplePending =
        ({ samplePending with
             delegate := { written := [sampleWriteBuf.take 72], failPlan := [] },
             writeCounter := 1, writePos := 0 }, .ok ()) := by
  refine ⟨by decide, ?_⟩
  have h := (c3_flush_seals_one_record encAppData samplePending).2 sampleWriteBuf 72
    (by decide) (by decide) rfl
  simpa using h

/-- C4: on an opened connection satisfying the write invariant (buffer
longer than the overhead), if the copy phase fills the buffer exactly
(`write_pos == record_write_buf.len() - TLS_RECORD_OVERHEAD`) then
`write`'s outcome is exactly `flush`'s outcome on the filled state, so
flush runs before `write` returns; and every successful `write` leaves
`write_pos < record_write_buf.len() - TLS_RECORD_OVERHEAD`. -/
theorem c4_write_flushes_when_full (encode : EncodeFn) (c : Conn) (buf : List Nat)
    (hopen : c.opened = true) (hinv : WriteInv c)
    (hlen : TLS_RECORD_OVERHEAD < c.recordWriteBuf.length) :
    ((afterCopy c buf).writePos = c.recordWriteBuf.length - TLS_RECORD_OVERHEAD →
      write encode c buf =
        (match flush encode (afterCopy c buf) with
         | (c'', .error e) => (c'', .error e)
         | (c'', .ok ()) =>
           (c'', .ok (min buf.length
             (c.recordWriteBuf.length - TLS_RECORD_OVERHEAD - c.writePos))))) ∧
    (∀ c' n, write encode c buf = (c', .ok n) →
      c'.writePos < c.recordWriteBuf.length - TLS_RECORD_OVERHEAD) := by
  constructor
  · intro hfull
    simp only [write, hopen, if_true]
    rw [if_pos hfull]
  · intro c' n h
    simp only [write, hopen, if_true] at h
    split at h
    · next hfull =>
      rcases hf : flush encode (afterCopy c buf) with ⟨c'', r⟩
      rw [hf] at h
      rcases r with e | u
      · exact absurd (congrArg Prod.snd h) (by simp)
      · cases u
        injection h with h1 h2
        rw [← h1, flush_ok_writePos encode (afterCopy c buf) c'' hf]
        omega
    · next hne =>
      injection h with h1 h2
      have hle := afterCopy_preserves_inv c buf hinv
      simp only [WriteInv] at hle
      rw [afterCopy_bufLength] at hle
      rw [← h1]
      omega

theorem c4_witness :
    (write encAppData sampleOpen [1, 2, 3]).1.writePos <
      sampleOpen.recordWriteBuf.length - TLS_RECORD_OVERHEAD := by
  have h := (c4_write_flushes_when_full encAppData sampleOpen [1, 2, 3]
    rfl (by decide) (by decide)).2
  exact h (write encAppData sampleOpen [1, 2, 3]).1 3 (by decide)

/-- C5: the invariant `write_pos ≤ record_write_buf.len() -
TLS_RECORD_OVERHEAD` holds after `new` and is preserved by `write`,
`flush`, `read_buffered`, `read` and `open`, in success and error
outcomes alike. The sealer and the driver are arbitrary, assumed only to
keep the buffer length fixed (in Rust they receive `&mut [u8]`, which
cannot change length). -/
theorem c5_write_inv_preserved (encode : EncodeFn) (step : ReadStep) (process : ProcessFn)
    (henc : ∀ b p k b' l, encode b p k = .ok (b', l) → b'.length = b.length)
    (hproc : ∀ s e2 e2' r2, process s e2 = (e2', r2) →
      e2'.recordWriteBuf.length = e2.recordWriteBuf.length) :
    (∀ d rb wb c0, new d rb wb = some c0 → WriteInv c0) ∧
    (∀ c buf c' r, WriteInv c → write encode c buf = (c', r) → WriteInv c') ∧
    (∀ c c' r, WriteInv c → flush encode c = (c', r) → WriteInv c') ∧
    (∀ fuel c c' r, WriteInv c → readBuffered step fuel c = some (c', r) → WriteInv c') ∧
    (∀ fuel outLen c c' r, WriteInv c → read step fuel c outLen = some (c', r) →
      WriteInv c') ∧
    (∀ fuel c c' r, WriteInv c → openConn process fuel c = some (c', r) → WriteInv c') := by
  refine ⟨?_, ?_, ?_, ?_, ?_, ?_⟩
  · intro d rb wb c0 h
    unfold new at h
    split at h
    · injection h with h1
      rw [← h1]
      exact Nat.zero_le _
    · simp at h
  · intro c buf c' r hinv h
    simp only [write] at h
    split at h
    · split at h
      · rcases hf : flush encode (afterCopy c buf) with ⟨c'', r2⟩
        rw [hf] at h
        rcases r2 with e | u
        · injection h with h1 h2
          rw [← h1]
          exact flush_preserves_inv encode (afterCopy c buf) c'' _ henc
            (afterCopy_preserves_inv c buf hinv) hf
        · cases u
          injection h with h1 h2
          rw [← h1]
          exact flush_preserves_inv encode (afterCopy c buf) c'' _ henc
            (afterCopy_preserves_inv c buf hinv) hf
      · injection h with h1 h2
        rw [← h1]
        exact afterCopy_preserves_inv c buf hinv
    · injection h with h1 h2
      rw [← h1]
      exact hinv
  · intro c c' r hinv h
    exact flush_preserves_inv encode c c' r henc hinv h
  · intro fuel c c' r hinv h
    have hpres := readBuffered_preserves_write_side step fuel c c' r h
    simp only [WriteInv, hpres.1, hpres.2]
    exact hinv
  · intro fuel outLen c c' r hinv h
    have hpres := read_preserves_write_side step fuel c c' outLen r h
    simp only [WriteInv, hpres.1, hpres.2]
    exact hinv
  · intro fuel c c' r hinv h
    unfold openConn at h
    rcases hl : openLoop process fuel State.ClientHello c.toHsEnv with _ | ⟨env, r2⟩
    · rw [hl] at h; simp at h
    · rw [hl] at h
      have hlen : env.recordWriteBuf.length = c.recordWriteBuf.length :=
        openLoop_bufLength process fuel State.ClientHello c.toHsEnv env r2 hproc hl
      rcases r2 with e | u
      · injection h with h1
        injection h1 with h2 h3
        rw [← h2]
        simp only [WriteInv, Conn.withHsEnv, hlen]
        exact hinv
      · cases u
        injection h with h1
        injection h1 with h2 h3
        rw [← h2]
        simp only [WriteInv, Conn.withHsEnv, hlen]
        exact hinv

theorem c5_witness : WriteInv (write encAppData sampleOpen [1, 2, 3]).1 := by
  have h := (c5_write_inv_preserved encAppData stepNoop procToApp
    (by intro b p k b' l hb; injection hb with hb2; injection hb2 with hb3 hb4;
        rw [← hb3])
    (by intro s e2 e2' r2 hp; injection hp with hp1 hp2; rw [← hp1])).2.1
  exact h sampleOpen [1, 2, 3] _ _ (by decide) rfl

/-- C6: `open` returns `Ok(())` exactly when the driver reaches the
`ApplicationData` state (within the given fuel); on success — and only
then — `opened` is set to `true`; on a processing error `open` returns
that very error (the first one the driver raised) and leaves `opened`
unchanged. -/
theorem c6_open_reaches_application_data (process : ProcessFn) (fuel : Nat) (c : Conn) :
    (∀ c', openConn process fuel c = some (c', .ok ()) → c'.opened = true) ∧
    ((∃ c', openConn process fuel c = some (c', .ok ())) ↔
      reachesAppData process fuel State.ClientHello c.toHsEnv = true) ∧
    (∀ c' e, openConn process fuel c = some (c', .error e) →
      c'.opened = c.opened ∧
      firstProcessError process fuel State.ClientHello c.toHsEnv = some e) := by
  refine ⟨?_, ⟨?_, ?_⟩, ?_⟩
  · intro c' h
    unfold openConn at h
    rcases hl : openLoop process fuel State.ClientHello c.toHsEnv with _ | ⟨env, r2⟩
    · rw [hl] at h; simp at h
    · rw [hl] at h
      rcases r2 with e | u
      · injection h with h1
        injection h1 with h2 h3
        exact absurd h3 (by simp)
      · cases u
        injection h with h1
        injection h1 with h2 h3
        rw [← h2]
  · rintro ⟨c', h⟩
    unfold openConn at h
    rcases hl : openLoop process fuel State.ClientHello c.toHsEnv with _ | ⟨env, r2⟩
    · rw [hl] at h; simp at h
    · rw [hl] at h
      rcases r2 with e | u
      · injection h with h1
        injection h1 with h2 h3
        exact absurd h3 (by simp)
      · exact (openLoop_ok_iff_reaches process fuel State.ClientHello c.toHsEnv).mp
          ⟨env, by rw [hl]⟩
  · intro hr
    obtain ⟨env, hl⟩ :=
      (openLoop_ok_iff_reaches process fuel State.ClientHello c.toHsEnv).mpr hr
    refine ⟨{ c.withHsEnv env with opened := true }, ?_⟩
    unfold openConn
    rw [hl]
  · intro c' e h
    unfold openConn at h
    rcases hl : openLoop process fuel State.ClientHello c.toHsEnv with _ | ⟨env, r2⟩
    · rw [hl] at h; simp at h
    · rw [hl] at h
      rcases r2 with e2 | u
      · injection h with h1
        injection h1 with h2 h3
        injection h3 with h4
        constructor
        · rw [← h2]; rfl
        · rw [← h4]
          exact openLoop_error_firstError process fuel State.ClientHello c.toHsEnv env e2 hl
      · cases u
        injection h with h1
        injection h1 with h2 h3
        exact absurd h3 (by simp)

theorem c6_witness :
    openConn procToApp 1 sampleClosed = some ({ sampleClosed with opened := true }, .ok ()) ∧
      ({ sampleClosed with opened := true } : Conn).opened = true := by
  have h1 : openConn procToApp 1 sampleClosed =
      some ({ sampleClosed with opened := true }, .ok ()) := by decide
  exact ⟨h1, (c6_open_reaches_application_data procToApp 1 sampleClosed).1 _ h1⟩

/-- C7: `close` always hands back ownership of the transport: the
CloseNotify record it encodes is built from the `opened` flag (encrypted
iff opened), and whatever `close_internal` does, the result is
`Ok(transport)` on success and `Err((transport, error))` on failure. -/
theorem c7_close_returns_transport (encodeRecord : EncodeRecordFn) (c : Conn) :
    (∀ c', closeInternal encodeRecord c = (c', .ok ()) →
      close encodeRecord c = .ok c'.delegate) ∧
    (∀ c' e, closeInternal encodeRecord c = (c', .error e) →
      close encodeRecord c = .error (c'.delegate, e)) ∧
    (ClientRecord.closeNotify c.opened).encrypted = c.opened ∧
    ((∃ s, close encodeRecord c = .ok s) ∨
      ∃ s e, close encodeRecord c = .error (s, e)) := by
  refine ⟨?_, ?_, rfl, ?_⟩
  · intro c' h
    unfold close
    rw [h]
  · intro c' e h
    unfold close
    rw [h]
  · rcases hc : closeInternal encodeRecord c with ⟨c', r⟩
    rcases r with e | u
    · right
      exact ⟨c'.delegate, e, by unfold close; rw [hc]⟩
    · cases u
      left
      exact ⟨c'.delegate, by unfold close; rw [hc]⟩

theorem c7_witness :
    close encRecordOk sampleOpen = .ok (closeInternal encRecordOk sampleOpen).1.delegate :=
  (c7_close_returns_transport encRecordOk sampleOpen).1 _ (by decide)

/-- C8: `new` performs no I/O (the transport is stored untouched), its
assertion cannot fire when `write_buf.len() > TLS_RECORD_OVERHEAD`, and
the connection it produces has `opened == false` and `write_pos == 0`
(and zeroed counters and decrypted cursor). -/
theorem c8_new_unopened_no_io (d : Socket) (rb wb : List Nat)
    (h : TLS_RECORD_OVERHEAD < wb.length) :
    new d rb wb =
      some { delegate := d, opened := false, writeCounter := 0, readCounter := 0,
             recordReadBuf := rb, recordWriteBuf := wb, writePos := 0, decrypted := {} } ∧
    (∀ c0, new d rb wb = some c0 →
      c0.opened = false ∧ c0.writePos = 0 ∧ c0.delegate = d) := by
  have hd : new d rb wb =
      some { delegate := d, opened := false, writeCounter := 0, readCounter := 0,
             recordReadBuf := rb, recordWriteBuf := wb, writePos := 0,
             decrypted := {} } := by
    unfold new
    rw [if_pos h]
  refine ⟨hd, ?_⟩
  intro c0 hc
  rw [hd] at hc
  injection hc with h1
  rw [← h1]
  exact ⟨rfl, rfl, rfl⟩

theorem c8_witness :
    new {} [] sampleWriteBuf =
      some { delegate := {}, opened := false, writeCounter := 0, readCounter := 0,
             recordReadBuf := [], recordWriteBuf := sampleWriteBuf, writePos := 0,
             decrypted := {} } :=
  (c8_new_unopened_no_io {} [] sampleWriteBuf (by decide)).1

/-- C9: if `open` fails on a connection that was not yet opened, the
`opened` flag is still `false` afterwards, and every subsequent `write`,
`read_buffered` or `read` returns `MissingHandshake` without touching the
connection (and hence without touching the transport). -/
theorem c9_open_error_keeps_unopened (process : ProcessFn) (encode : EncodeFn)
    (step : ReadStep) (fuel fuel2 outLen : Nat) (c c' : Conn) (e : TlsError)
    (buf : List Nat) (hopen : c.opened = false)
    (h : openConn process fuel c = some (c', .error e)) :
    c'.opened = false ∧
    write encode c' buf = (c', .error .MissingHandshake) ∧
    readBuffered step fuel2 c' = some (c', .error .MissingHandshake) ∧
    read step fuel2 c' outLen = some (c', .error .MissingHandshake) := by
  have hop : c'.opened = false := by
    unfold openConn at h
    rcases hl : openLoop process fuel State.ClientHello c.toHsEnv with _ | ⟨env, r2⟩
    · rw [hl] at h; simp at h
    · rw [hl] at h
      rcases r2 with e2 | u
      · injection h with h1
        injection h1 with h2 h3
        rw [← h2]
        exact hopen
      · cases u
        injection h with h1
        injection h1 with h2 h3
        exact absurd h3 (by simp)
  exact ⟨hop, write_not_opened encode c' buf hop,
         readBuffered_not_opened step fuel2 c' hop,
         read_not_opened step fuel2 c' outLen hop⟩

theorem c9_witness :
    sampleClosed.opened = false ∧
      write encAppData sampleClosed [7] = (sampleClosed, .error .MissingHandshake) := by
  refine ⟨rfl, ?_⟩
  exact (c9_open_error_keeps_unopened procFail encAppData stepNoop 1 2 5 sampleClosed
    sampleClosed .DecodeError [7] rfl (by decide)).2.1

theorem writeAll_ok_written (s : Socket) (data : List Nat) (d : Socket)
    (h : s.writeAll data = (d, none)) : d.written = s.written ++ [data] := by
  unfold Socket.writeAll at h
  split at h
  · injection h with h1 h2
    rw [← h1]
  · injection h with h1 h2
    rw [← h1]
  · injection h with h1 h2
    exact absurd h2 (by simp)

/-- C10: when the transport write inside `flush` fails, `flush` returns
that `Io` error with `write_pos` unchanged (still positive) and the write
counter not incremented, and nothing added to the transport log; and
every successful `flush` of a non-empty buffer increments the write
counter exactly once and writes exactly one record. -/
theorem c10_flush_io_error_no_increment (encode : EncodeFn) (c : Conn) (buf : List Nat)
    (len k : Nat) (rest : List (Option Nat))
    (hpos : 0 < c.writePos)
    (henc : encode c.recordWriteBuf c.writePos c.writeCounter = .ok (buf, len))
    (hplan : c.delegate.failPlan = some k :: rest) :
    flush encode c =
      ({ c with recordWriteBuf := buf,
                delegate := { c.delegate with failPlan := rest } }, .error (.Io k)) ∧
    (flush encode c).1.writePos = c.writePos ∧
    0 < (flush encode c).1.writePos ∧
    (flush encode c).1.writeCounter = c.writeCounter ∧
    (flush encode c).1.delegate.written = c.delegate.written ∧
    (∀ c2 c2' : Conn, 0 < c2.writePos → flush encode c2 = (c2', .ok ()) →
      c2'.writeCounter = c2.writeCounter + 1 ∧
      c2'.delegate.written.length = c2.delegate.written.length + 1) := by
  have hmain := flush_pos_fail encode c buf len k rest hpos henc hplan
  refine ⟨hmain, by rw [hmain], by rw [hmain]; exact hpos, by rw [hmain],
          by rw [hmain], ?_⟩
  intro c2 c2' hpos2 h
  unfold flush at h
  rw [if_pos hpos2] at h
  split at h
  · injection h with h1 h2
    exact absurd h2 (by simp)
  · next b2 l2 he =>
    split at h
    · injection h with h1 h2
      exact absurd h2 (by simp)
    · next d2 hw =>
      injection h with h1 h2
      rw [← h1]
      refine ⟨rfl, ?_⟩
      have hwr := writeAll_ok_written c2.delegate (List.take l2 b2) d2 hw
      simp only [hwr, List.length_append, List.length_cons, List.length_nil]

theorem c10_witness :
    (flush encAppData sampleFailConn).2 = .error (.Io 5) ∧
      (flush encAppData sampleFailConn).1.writePos = sampleFailConn.writePos ∧
      (flush encAppData sampleFailConn).1.writeCounter = sampleFailConn.writeCounter := by
  have h := c10_flush_io_error_no_increment encAppData sampleFailConn sampleWriteBuf 32 5 []
    (by decide) (by decide) (by decide)
  exact ⟨by rw [h.1], h.2.1, h.2.2.2.1⟩

end EmbeddedTls
